import Mathlib

/-!
Shallow embedding of the slack-anonymizer core modules
(src/utils/anonymizer.js and the analyzer module) together with
theorems settling the frozen specification claims.

Strings are modelled as lists of characters; JavaScript numbers are
modelled as exact rationals; the regular-expression substitution
pipeline is modelled by a backtracking matcher with JavaScript
semantics (leftmost match, greedy quantifiers, word boundaries over
the ASCII word-character class).
-/

namespace SlackAnon

/-- ASCII lowercase conversion of one character, mirroring the effect of
JavaScript toLowerCase on the ASCII range (all lexicon phrases and rule
literals in the source are ASCII). -/
def lowerChar (c : Char) : Char :=
  if 'A' ≤ c ∧ c ≤ 'Z' then Char.ofNat (c.toNat + 32) else c

/-- Lowercase a string (as a character list), mirroring text.toLowerCase(). -/
def lowerStr (s : List Char) : List Char := s.map lowerChar

/-- Test whether the first list starts with the second list. -/
def startsWithList : List Char → List Char → Bool
  | _, [] => true
  | [], _ :: _ => false
  | c :: cs, p :: ps => c == p && startsWithList cs ps

/-- Substring containment, mirroring JavaScript String.prototype.includes. -/
def containsSub (s pat : List Char) : Bool :=
  match s with
  | [] => startsWithList [] pat
  | c :: cs => startsWithList (c :: cs) pat || containsSub cs pat

/-- Whitespace class of JavaScript regular expressions (the class matched
by a backslash-s atom): ASCII whitespace plus the Unicode space
separators recognised by ECMAScript. -/
def isWsChar (c : Char) : Bool :=
  c.toNat = 9 || c.toNat = 10 || c.toNat = 11 || c.toNat = 12 ||
  c.toNat = 13 || c.toNat = 32 ||
  c.toNat = 0xa0 || c.toNat = 0x1680 ||
  (0x2000 ≤ c.toNat && c.toNat ≤ 0x200a) ||
  c.toNat = 0x2028 || c.toNat = 0x2029 || c.toNat = 0x202f ||
  c.toNat = 0x205f || c.toNat = 0x3000 || c.toNat = 0xfeff

/-- Tail worker for jsSplitWs: acc is the current piece reversed, the
flag records whether the previous character was whitespace. -/
def jsSplitWsAux : List Char → List Char → Bool → List (List Char)
  | [], acc, _ => [acc.reverse]
  | c :: cs, acc, prevWs =>
    if isWsChar c then
      if prevWs then jsSplitWsAux cs [] true
      else acc.reverse :: jsSplitWsAux cs [] true
    else jsSplitWsAux cs (c :: acc) false

/-- Splitting on runs of whitespace, mirroring JavaScript
text.split on a whitespace-plus regular expression: the pieces between
maximal whitespace runs, including an empty piece for a leading run and
an empty piece for a trailing run, and a single piece for the empty
string. -/
def jsSplitWs (s : List Char) : List (List Char) := jsSplitWsAux s [] false

/-- Word characters of JavaScript regular expressions (the class matched
by a backslash-w atom): ASCII letters, digits and underscore. -/
def isWordChar (c : Char) : Bool :=
  ('a' ≤ c && c ≤ 'z') || ('A' ≤ c && c ≤ 'Z') ||
  ('0' ≤ c && c ≤ '9') || c == '_'

/-- Tail worker collecting maximal runs of characters kept by a
predicate: acc is the current run reversed. -/
def runsAux (keep : Char → Bool) : List Char → List Char → List (List Char)
  | [], acc => if acc.isEmpty then [] else [acc.reverse]
  | c :: cs, acc =>
    if keep c then runsAux keep cs (c :: acc)
    else if acc.isEmpty then runsAux keep cs []
    else acc.reverse :: runsAux keep cs []

/-- Maximal runs of word characters, mirroring the global match of a
word-boundary-delimited word pattern used by the keyword extractor. -/
def wordsOf (s : List Char) : List (List Char) := runsAux isWordChar s []

/-- Maximal runs of non-whitespace characters: the whitespace-delimited
tokens of a string in the ordinary sense. -/
def nonWsRuns (s : List Char) : List (List Char) :=
  runsAux (fun c => !isWsChar c) s []

/-- Regular-expression abstract syntax for the redaction rules: a
character class, a word-boundary assertion, sequencing, prioritized
alternation (left branch preferred, as in a backtracking engine),
the empty expression and a greedy counted repetition. -/
inductive Rx where
  | cls (p : Char → Bool)
  | wb
  | seq (a b : Rx)
  | alt (a b : Rx)
  | eps
  | rep (a : Rx) (lo : Nat) (hi : Option Nat)

/-- Test whether an optional character is a word character. -/
def isWordOpt : Option Char → Bool
  | none => false
  | some c => isWordChar c

/-- Word-boundary test between the previous character and the head of
the remaining input (ECMAScript boundary semantics over the ASCII word
class). -/
def isBoundary (prev : Option Char) (s : List Char) : Bool :=
  isWordOpt prev != isWordOpt s.head?

/-- Decrement an optional repetition bound. -/
def decrOpt : Option Nat → Option Nat
  | none => none
  | some n => some (n - 1)

/-- Backtracking matcher in continuation-passing style, mirroring the
ECMAScript matching algorithm: greedy quantifiers try the longer
expansion first, alternation tries the left branch first, and the first
success of the whole continuation chain wins.  The continuation
receives the remaining input and the character preceding it.  Fuel
bounds the call depth; all callers supply fuel that is large enough,
so running out of fuel never occurs on the inputs evaluated here. -/
def matchRx : Nat → Rx → List Char → Option Char →
    (List Char → Option Char → Option (List Char × Option Char)) →
    Option (List Char × Option Char)
  | 0, _, _, _, _ => none
  | fuel + 1, r, s, prev, k =>
    match r with
    | .eps => k s prev
    | .cls p =>
      match s with
      | [] => none
      | c :: cs => if p c then k cs (some c) else none
    | .wb => if isBoundary prev s then k s prev else none
    | .seq a b =>
      matchRx fuel a s prev (fun s2 p2 => matchRx fuel b s2 p2 k)
    | .alt a b =>
      match matchRx fuel a s prev k with
      | some res => some res
      | none => matchRx fuel b s prev k
    | .rep a lo hi =>
      match lo, hi with
      | 0, some 0 => k s prev
      | 0, _ =>
        match matchRx fuel a s prev (fun s2 p2 =>
            if s2.length < s.length then
              matchRx fuel (.rep a 0 (decrOpt hi)) s2 p2 k
            else none) with
        | some res => some res
        | none => k s prev
      | lo' + 1, _ =>
        matchRx fuel a s prev (fun s2 p2 =>
          matchRx fuel (.rep a lo' (decrOpt hi)) s2 p2 k)

/-- Attempt a match of the pattern at the current position, returning
the remaining input and the last consumed character on success. -/
def tryMatchAt (r : Rx) (s : List Char) (prev : Option Char) :
    Option (List Char × Option Char) :=
  matchRx (2000 + 20 * s.length) r s prev (fun rest p2 => some (rest, p2))

/-- Scan the input left to right, replacing every non-overlapping
leftmost match of the pattern by the token, mirroring a global
JavaScript String.prototype.replace.  Fuel is one more than the input
length; every step consumes at least one input character. -/
def replaceScan (rx : Rx) (tok : List Char) :
    Nat → List Char → Option Char → List Char
  | 0, s, _ => s
  | fuel + 1, s, prev =>
    match tryMatchAt rx s prev with
    | some (rest, p2) =>
      if rest.length < s.length then tok ++ replaceScan rx tok fuel rest p2
      else
        match s with
        | [] => []
        | c :: cs => c :: replaceScan rx tok fuel cs (some c)
    | none =>
      match s with
      | [] => []
      | c :: cs => c :: replaceScan rx tok fuel cs (some c)

/-- Global regular-expression replacement on a character list. -/
def jsReplaceAll (rx : Rx) (tok : List Char) (s : List Char) : List Char :=
  replaceScan rx tok (s.length + 1) s none

/-- Single-character literal pattern. -/
def chC (c : Char) : Rx := .cls (fun x => x == c)

/-- Literal string pattern. -/
def litR (s : List Char) : Rx := (s.map chC).foldr .seq .eps

/-- Sequencing of a list of patterns. -/
def seqs (l : List Rx) : Rx := l.foldr .seq .eps

/-- Greedy option. -/
def optR (r : Rx) : Rx := .alt r .eps

/-- Greedy one-or-more repetition. -/
def plusR (r : Rx) : Rx := .rep r 1 none

/-- Greedy zero-or-more repetition. -/
def starR (r : Rx) : Rx := .rep r 0 none

/-- Exactly-n repetition. -/
def repN (r : Rx) (n : Nat) : Rx := .rep r n (some n)

/-- ASCII digit class. -/
def isDigitCh (c : Char) : Bool := '0' ≤ c && c ≤ '9'

/-- ASCII uppercase class. -/
def isUpperCh (c : Char) : Bool := 'A' ≤ c && c ≤ 'Z'

/-- ASCII lowercase class. -/
def isLowerCh (c : Char) : Bool := 'a' ≤ c && c ≤ 'z'

/-- ASCII letter class. -/
def isAlphaCh (c : Char) : Bool := isUpperCh c || isLowerCh c

/-- Membership of a character in a list of characters. -/
def memCh (cs : List Char) (c : Char) : Bool := cs.contains c

/-- The digit atom. -/
def dR : Rx := .cls isDigitCh

/-- The redaction rules of anonymizeText, in source order: each entry
is the pattern together with its replacement token. -/
def redactRules : List (Rx × List Char) :=
  [ -- email addresses
    (seqs [.wb, plusR (.cls fun c => isAlphaCh c || isDigitCh c || memCh ['.', '_', '%', '+', '-'] c),
           chC '@',
           plusR (.cls fun c => isAlphaCh c || isDigitCh c || memCh ['.', '-'] c),
           chC '.',
           .rep (.cls fun c => isUpperCh c || c == '|' || isLowerCh c) 2 none,
           .wb],
     "[EMAIL]".data),
    -- phone numbers, plain with optional dash or dot separators
    (seqs [.wb, repN dR 3, optR (.cls (memCh ['-', '.'])), repN dR 3,
           optR (.cls (memCh ['-', '.'])), repN dR 4, .wb],
     "[PHONE]".data),
    -- phone numbers with parenthesized area code
    (seqs [chC '(', repN dR 3, chC ')', starR (.cls isWsChar), repN dR 3,
           optR (.cls (memCh ['-', '.'])), repN dR 4],
     "[PHONE]".data),
    -- phone numbers with mandatory dash, dot or whitespace separators
    (seqs [.wb, repN dR 3, .cls (fun c => memCh ['-', '.'] c || isWsChar c), repN dR 3,
           .cls (fun c => memCh ['-', '.'] c || isWsChar c), repN dR 4, .wb],
     "[PHONE]".data),
    -- URLs
    (seqs [litR "http".data, optR (chC 's'), litR "://".data,
           optR (litR "www.".data),
           .rep (.cls fun c => isAlphaCh c || isDigitCh c ||
             memCh ['-', '@', ':', '%', '.', '_', '+', '~', '#', '='] c) 1 (some 256),
           chC '.',
           .rep (.cls fun c => isAlphaCh c || isDigitCh c || memCh ['(', ')'] c) 1 (some 6),
           .wb,
           starR (.cls fun c => isAlphaCh c || isDigitCh c ||
             memCh ['-', '(', ')', '@', ':', '%', '_', '+', '.', '~', '#', '?', '&', '/', '='] c)],
     "[URL]".data),
    -- IPv4-shaped dotted quads
    (seqs [.wb, repN (seqs [.rep dR 1 (some 3), chC '.']) 3, .rep dR 1 (some 3), .wb],
     "[IP_ADDRESS]".data),
    -- credit card numbers
    (seqs [.wb, repN dR 4, optR (.cls fun c => c == '-' || isWsChar c), repN dR 4,
           optR (.cls fun c => c == '-' || isWsChar c), repN dR 4,
           optR (.cls fun c => c == '-' || isWsChar c), repN dR 4, .wb],
     "[CREDIT_CARD]".data),
    -- partial credit card references
    (seqs [.wb, litR "ending in ".data, repN dR 4, .wb],
     "[CREDIT_CARD_PARTIAL]".data),
    -- SSNs
    (seqs [.wb, repN dR 3, chC '-', repN dR 2, chC '-', repN dR 4, .wb],
     "[SSN]".data),
    -- account numbers
    (seqs [.wb, litR "Account ".data, .rep dR 10 none, .wb],
     "[ACCOUNT_NUMBER]".data),
    -- transaction IDs
    (seqs [.wb, repN (.cls isUpperCh) 3, chC '-', repN dR 4, chC '-', repN dR 6, .wb],
     "[TRANSACTION_ID]".data),
    -- SSH public keys
    (seqs [litR "ssh-rsa".data, plusR (.cls isWsChar),
           plusR (.cls fun c => isAlphaCh c || isDigitCh c || memCh ['+', '/', '='] c)],
     "[SSH_KEY]".data),
    -- internal server names
    (seqs [.wb, plusR (.cls fun c => isWordChar c || c == '-'), chC '.',
           plusR (.cls fun c => isWordChar c || c == '-'), litR ".company.com".data, .wb],
     "[INTERNAL_SERVER]".data),
    -- monetary amounts with thousands separators
    (seqs [chC '$', .rep dR 1 (some 3), plusR (seqs [chC ',', repN dR 3])],
     "[AMOUNT]".data) ]

/-- anonymizeText from src/utils/anonymizer.js: applies the redaction
rules in order, each one via a global regular-expression replace on
the output of the previous one. -/
def anonymizeText (text : String) : String :=
  ⟨redactRules.foldl (fun s rule => jsReplaceAll rule.1 rule.2 s) text.data⟩

example : jsSplitWs " great".data = ["".data, "great".data] := by decide
example : jsSplitWs "".data = [[]] := by decide
example : jsSplitWs " ".data = [[], []] := by decide
example : jsSplitWs "a b".data = [['a'], ['b']] := by decide
example : wordsOf "abc 111,x".data = ["abc".data, "111".data, ['x']] := by decide
example : containsSub "this is great".data "great".data = true := by decide
example : containsSub "abc".data "abd".data = false := by decide

/-! SHA-256, as used by the identity hasher through the Node crypto
module: full implementation over natural numbers reduced modulo 2^32. -/

/-- UTF-8 encoding of one code point. -/
def utf8Char (n : Nat) : List Nat :=
  if n < 0x80 then [n]
  else if n < 0x800 then [0xc0 + n / 64, 0x80 + n % 64]
  else if n < 0x10000 then
    [0xe0 + n / 4096, 0x80 + (n / 64) % 64, 0x80 + n % 64]
  else
    [0xf0 + n / 262144, 0x80 + (n / 4096) % 64, 0x80 + (n / 64) % 64,
     0x80 + n % 64]

/-- UTF-8 encoding of a string, as Node crypto hash.update performs it. -/
def utf8Bytes (s : String) : List Nat := (s.data.map (fun c => utf8Char c.toNat)).flatten

/-- Right rotation of a 32-bit word. -/
def rotr32 (n x : Nat) : Nat := ((x >>> n) ||| (x <<< (32 - n))) &&& 0xffffffff

/-- SHA-256 round constants. -/
def sha256k : List Nat :=
  [1116352408, 1899447441, 3049323471, 3921009573,
   961987163, 1508970993, 2453635748, 2870763221,
   3624381080, 310598401, 607225278, 1426881987,
   1925078388, 2162078206, 2614888103, 3248222580,
   3835390401, 4022224774, 264347078, 604807628,
   770255983, 1249150122, 1555081692, 1996064986,
   2554220882, 2821834349, 2952996808, 3210313671,
   3336571891, 3584528711, 113926993, 338241895,
   666307205, 773529912, 1294757372, 1396182291,
   1695183700, 1986661051, 2177026350, 2456956037,
   2730485921, 2820302411, 3259730800, 3345764771,
   3516065817, 3600352804, 4094571909, 275423344,
   430227734, 506948616, 659060556, 883997877,
   958139571, 1322822218, 1537002063, 1747873779,
   1955562222, 2024104815, 2227730452, 2361852424,
   2428436474, 2756734187, 3204031479, 3329325298]

/-- Working state of the compression function. -/
structure H8 where
  a : Nat
  b : Nat
  c : Nat
  d : Nat
  e : Nat
  f : Nat
  g : Nat
  h : Nat

/-- Initial hash value. -/
def sha256init : H8 :=
  ⟨1779033703, 3144134277, 1013904242, 2773480762,
   1359893119, 2600822924, 528734635, 1541459225⟩

/-- Big-endian packing of bytes into 32-bit words. -/
def words16 : List Nat → List Nat
  | b0 :: b1 :: b2 :: b3 :: rest =>
    (((b0 * 256 + b1) * 256 + b2) * 256 + b3) :: words16 rest
  | _ => []

/-- Message-schedule extension: the accumulator holds the schedule so
far in reverse; n more words are appended. -/
def extendWords : Nat → List Nat → List Nat
  | 0, rev => rev.reverse
  | n + 1, rev =>
    let s0 := rotr32 7 (rev.getD 14 0) ^^^ rotr32 18 (rev.getD 14 0) ^^^
      (rev.getD 14 0 >>> 3)
    let s1 := rotr32 17 (rev.getD 1 0) ^^^ rotr32 19 (rev.getD 1 0) ^^^
      (rev.getD 1 0 >>> 10)
    extendWords n (((rev.getD 15 0 + s0 + rev.getD 6 0 + s1) % 0x100000000) :: rev)

/-- One round of the compression function, consuming a round constant
paired with a schedule word. -/
def compressStep (st : H8) (kw : Nat × Nat) : H8 :=
  let s1 := rotr32 6 st.e ^^^ rotr32 11 st.e ^^^ rotr32 25 st.e
  let ch := (st.e &&& st.f) ^^^ ((st.e ^^^ 0xffffffff) &&& st.g)
  let t1 := (st.h + s1 + ch + kw.1 + kw.2) % 0x100000000
  let s0 := rotr32 2 st.a ^^^ rotr32 13 st.a ^^^ rotr32 22 st.a
  let mj := (st.a &&& st.b) ^^^ (st.a &&& st.c) ^^^ (st.b &&& st.c)
  let t2 := (s0 + mj) % 0x100000000
  ⟨(t1 + t2) % 0x100000000, st.a, st.b, st.c,
   (st.d + t1) % 0x100000000, st.e, st.f, st.g⟩

/-- Process one 64-byte chunk. -/
def sha256Chunk (st : H8) (chunk : List Nat) : H8 :=
  let w := extendWords 48 (words16 chunk).reverse
  let r := (sha256k.zip w).foldl compressStep st
  ⟨(st.a + r.a) % 0x100000000, (st.b + r.b) % 0x100000000,
   (st.c + r.c) % 0x100000000, (st.d + r.d) % 0x100000000,
   (st.e + r.e) % 0x100000000, (st.f + r.f) % 0x100000000,
   (st.g + r.g) % 0x100000000, (st.h + r.h) % 0x100000000⟩

/-- Split a byte list into 64-byte chunks; fuel bounds the recursion. -/
def chunks64 : Nat → List Nat → List (List Nat)
  | 0, _ => []
  | _, [] => []
  | fuel + 1, bs => bs.take 64 :: chunks64 fuel (bs.drop 64)

/-- Big-endian 8-byte encoding of a natural number. -/
def be64 (n : Nat) : List Nat :=
  [(n >>> 56) % 256, (n >>> 48) % 256, (n >>> 40) % 256, (n >>> 32) % 256,
   (n >>> 24) % 256, (n >>> 16) % 256, (n >>> 8) % 256, n % 256]

/-- SHA-256 padding: a 0x80 byte, zeros up to 56 mod 64, then the
64-bit big-endian bit length. -/
def sha256pad (bs : List Nat) : List Nat :=
  bs ++ (0x80 :: List.replicate ((64 - (bs.length + 9) % 64) % 64) 0) ++
    be64 (8 * bs.length)

/-- Final state of SHA-256 over a byte list. -/
def sha256state (bs : List Nat) : H8 :=
  let padded := sha256pad bs
  (chunks64 (padded.length + 1) padded).foldl sha256Chunk sha256init

/-- Lowercase hex digit for a value below 16. -/
def hexDigitCh (n : Nat) : Char :=
  if n < 10 then Char.ofNat (48 + n) else Char.ofNat (87 + n)

/-- Eight-character lowercase hex rendering of a 32-bit word. -/
def hex8 (x : Nat) : List Char :=
  [hexDigitCh ((x >>> 28) % 16), hexDigitCh ((x >>> 24) % 16),
   hexDigitCh ((x >>> 20) % 16), hexDigitCh ((x >>> 16) % 16),
   hexDigitCh ((x >>> 12) % 16), hexDigitCh ((x >>> 8) % 16),
   hexDigitCh ((x >>> 4) % 16), hexDigitCh (x % 16)]

/-- Lowercase hex digest of a string, mirroring
createHash of sha256 followed by update and digest to hex. -/
def sha256hex (s : String) : List Char :=
  let st := sha256state (utf8Bytes s)
  hex8 st.a ++ hex8 st.b ++ hex8 st.c ++ hex8 st.d ++
  hex8 st.e ++ hex8 st.f ++ hex8 st.g ++ hex8 st.h

/-- hashUserId from src/utils/anonymizer.js: the literal user prefix
followed by the first 8 hex characters of the SHA-256 digest of the
user identifier. -/
def hashUserId (userId : String) : String :=
  ⟨"user_".data ++ (sha256hex userId).take 8⟩

/-! Data model and the message anonymizer. -/

/-- Reaction tally attached to a message. -/
structure Reaction where
  emoji : String
  count : Nat
deriving Repr, DecidableEq

/-- Input message record; reactions are optional, as in the schema. -/
structure Message where
  ts : String
  user : String
  username : String
  channel : String
  text : String
  reactions : Option (List Reaction)
deriving Repr, DecidableEq

/-- Record returned by anonymizeMessage. -/
structure AnonMessage where
  ts : String
  user : String
  username : String
  channel : String
  text : String
  reactions : List Reaction
  anonymized : Bool
deriving Repr, DecidableEq

/-- anonymizeMessage from src/utils/anonymizer.js. -/
def anonymizeMessage (m : Message) : AnonMessage where
  ts := m.ts
  user := hashUserId m.user
  username := "[USERNAME]"
  channel := m.channel
  text := anonymizeText m.text
  reactions := m.reactions.getD []
  anonymized := true

/-- anonymizeMessages from src/utils/anonymizer.js. -/
def anonymizeMessages (messages : List Message) : List AnonMessage :=
  messages.map anonymizeMessage

/-! Lexicon sentiment scorer. -/

/-- Positive phrase lexicon of the analyzer module. -/
def positiveWords : List String :=
  ["great", "smoothly", "hard work", "love", "amazing", "excellent",
   "fantastic", "ready", "good", "thanks", "wonderful"]

/-- Negative phrase lexicon of the analyzer module. -/
def negativeWords : List String :=
  ["issue", "disappointing", "401 error", "problem", "critical", "bug",
   "urgent", "error", "issues", "help"]

/-- Three-way sentiment label. -/
inductive Sentiment where
  | positive
  | negative
  | neutral
deriving Repr, DecidableEq

/-- Sentiment tally record. -/
structure Tally where
  positive : Nat
  negative : Nat
  neutral : Nat
deriving Repr, DecidableEq

/-- Increment the tally slot selected by a label. -/
def Tally.bump (t : Tally) : Sentiment → Tally
  | .positive => ⟨t.positive + 1, t.negative, t.neutral⟩
  | .negative => ⟨t.positive, t.negative + 1, t.neutral⟩
  | .neutral => ⟨t.positive, t.negative, t.neutral + 1⟩

/-- Sum of the three slots of a tally. -/
def Tally.total (t : Tally) : Nat := t.positive + t.negative + t.neutral

/-- Net lexicon score of getSentiment: one point per positive phrase
contained in the lowercased text, minus one per negative phrase. -/
def sentimentScore (text : String) : Int :=
  negativeWords.foldl
    (fun sc w => if containsSub (lowerStr text.data) w.data then sc - 1 else sc)
    (positiveWords.foldl
      (fun sc w => if containsSub (lowerStr text.data) w.data then sc + 1 else sc)
      (0 : Int))

/-- getSentiment from the analyzer module. -/
def getSentiment (text : String) : Sentiment :=
  if sentimentScore text > 0 then .positive
  else if sentimentScore text < 0 then .negative
  else .neutral

/-- Integer rounding of JavaScript Math.round: half rounds up. -/
def jsRound (q : ℚ) : Int := Int.floor (q + 1 / 2)

/-- Rounding to two decimal places via Math.round of 100 times the
value, divided by 100. -/
def round2 (q : ℚ) : ℚ := (jsRound (q * 100) : ℚ) / 100

/-- Result record of getSentimentWithConfidence. -/
structure SentimentResult where
  sentiment : Sentiment
  score : Int
  confidence : ℚ
deriving Repr, DecidableEq

/-- Score and matched-phrase count accumulated by the two lexicon scans
of getSentimentWithConfidence. -/
def scoreAndMatched (text : String) : Int × Nat :=
  negativeWords.foldl
    (fun sm w => if containsSub (lowerStr text.data) w.data then (sm.1 - 1, sm.2 + 1) else sm)
    (positiveWords.foldl
      (fun sm w => if containsSub (lowerStr text.data) w.data then (sm.1 + 1, sm.2 + 1) else sm)
      ((0 : Int), (0 : Nat)))

/-- getSentimentWithConfidence from the analyzer module; the token
count is the length of text.split on whitespace runs. -/
def getSentimentWithConfidence (text : String) : SentimentResult :=
  let words : Nat := (jsSplitWs text.data).length
  let sm := scoreAndMatched text
  let score := sm.1
  let matchedWords := sm.2
  let confidence : ℚ :=
    if matchedWords = 0 then 3 / 10
    else
      let wordDensity : ℚ := (matchedWords : ℚ) / (words : ℚ)
      let scoreStrength : ℚ := (score.natAbs : ℚ) / (matchedWords : ℚ)
      min (1 / 2 + wordDensity * (3 / 10) + scoreStrength * (1 / 5)) (19 / 20)
  { sentiment :=
      if score > 0 then .positive
      else if score < 0 then .negative
      else .neutral
    score := score
    confidence := round2 confidence }

/-- getSentimentSummary from the analyzer module. -/
def getSentimentSummary (messages : List Message) : Tally :=
  messages.foldl (fun t m => t.bump (getSentiment m.text)) ⟨0, 0, 0⟩

/-! Keyword extraction. -/

/-- Modelled from the spec: the stop-word set of
src/utils/stopwords.js, a file absent from src; the spec and README
describe it only as a fixed set of common English stop words, so a
representative such set is used. -/
def stopWords : List String :=
  ["the", "and", "for", "are", "but", "not", "you", "with", "this",
   "that", "was", "were", "been", "will", "can", "could", "would",
   "have", "has", "had", "what", "when", "where", "who", "how", "all",
   "any", "its", "our", "their", "your", "from", "they", "them", "then",
   "there", "here", "out", "about", "into", "over", "after"]

/-- Own property names of Object.prototype in Node.  A fresh object
literal used as a dictionary inherits all of them through its prototype
chain, and each of them reads as a truthy value when the key has no own
entry: a built-in function, or the prototype object itself for the
accessor key of the prototype.  The source consults these inherited
values through expressions such as the frequency lookup and the negated
guards on the per-user and per-channel tables. -/
def protoKeys : List String :=
  ["constructor", "hasOwnProperty", "isPrototypeOf", "propertyIsEnumerable",
   "toLocaleString", "toString", "valueOf", "__defineGetter__",
   "__defineSetter__", "__lookupGetter__", "__lookupSetter__", "__proto__"]

/-- Value stored in the frequency dictionaries of the source: a number,
or a string when the first read of the key hit a truthy inherited
Object.prototype value and the addition degenerated to string
concatenation. -/
inductive JsCount where
  | num (n : Nat)
  | str (s : String)
deriving Repr, DecidableEq

/-- Rendering of an inherited Object.prototype value under string
conversion, as V8 performs it during concatenation: the constructor key
holds the Object function, the other built-in methods print under their
own names, and the prototype accessor returns the prototype object,
which stringifies to the generic object form. -/
def protoValStr (k : String) : String :=
  if k = "__proto__" then "[object Object]"
  else "function " ++ (if k = "constructor" then "Object" else k) ++
    "() \x7b [native code] \x7d"

/-- One application of the plus-one update to an existing own value:
a number increments, a string grows a trailing digit by
concatenation (every stored string is nonempty, hence truthy). -/
def bumpJsCount : JsCount → JsCount
  | .num n => .num (n + 1)
  | .str s => .str (s ++ "1")

/-- Keyword and its frequency. -/
structure Keyword where
  word : String
  count : JsCount
deriving Repr, DecidableEq

/-- Update of one frequency entry, mirroring the read-or-zero-plus-one
assignment of the source on an insertion-ordered own-property list.
When an own entry exists it is bumped in place.  When none exists the
read falls through to the prototype chain: for the prototype accessor
key the subsequent assignment is swallowed by the inherited setter and
no own property ever appears; for the other Object.prototype keys the
truthy inherited function makes the or-zero guard keep it and the
addition becomes string concatenation, stored as a new own entry; for
every other key the read is undefined and a numeric own entry is
created.  New own entries are appended in creation order, which is how
JavaScript objects enumerate non-index string keys. -/
def bumpCount (l : List (String × JsCount)) (w : String) : List (String × JsCount) :=
  match l with
  | [] =>
    if w = "__proto__" then []
    else if protoKeys.contains w then [(w, .str (protoValStr w ++ "1"))]
    else [(w, .num 1)]
  | (k, v) :: rest =>
    if k = w then (k, bumpJsCount v) :: rest else (k, v) :: bumpCount rest w

/-- Frequency table of the keyword extractor: words that are neither
stop words nor shorter than three characters, counted in encounter
order with the prototype-chain behaviour of bumpCount. -/
def buildFreq (ws : List (List Char)) : List (String × JsCount) :=
  ws.foldl
    (fun acc w =>
      if !stopWords.contains ⟨w⟩ && w.length > 2 then bumpCount acc ⟨w⟩ else acc)
    []

/-- Numeric value of a digit string. -/
def digitsToNat (w : List Char) : Nat :=
  w.foldl (fun n c => n * 10 + (c.toNat - 48)) 0

/-- Test for a JavaScript array-index property key: a canonical decimal
numeral below 2^32 - 1. -/
def isArrayIndexKey (s : String) : Bool :=
  !s.data.isEmpty && s.data.all isDigitCh &&
  (s == "0" || s.data.head? != some '0') &&
  digitsToNat s.data < 4294967295

/-- Property enumeration order of a JavaScript object with string keys:
array-index keys first in ascending numeric order, then the remaining
keys in insertion order.  This is the order Object.entries returns. -/
def jsEntries {α : Type} (l : List (String × α)) : List (String × α) :=
  (l.filter fun p => isArrayIndexKey p.1).insertionSort
    (fun p q => digitsToNat p.1.data ≤ digitsToNat q.1.data) ++
  l.filter fun p => !isArrayIndexKey p.1

/-- May-precede relation derived from the count-difference comparator
of the source sort: for two numeric counts the left element may come
first when its count is at least as large; a comparison involving a
string count evaluates to NaN, which the ECMAScript sort specification
turns into zero, so such pairs are tied and either relative order is
admissible. -/
def jsGeCount : JsCount → JsCount → Prop
  | .num a, .num b => b ≤ a
  | _, _ => True

instance : DecidableRel jsGeCount := fun a b =>
  match a, b with
  | .num a, .num b => inferInstanceAs (Decidable (b ≤ a))
  | .num _, .str _ => .isTrue trivial
  | .str _, .num _ => .isTrue trivial
  | .str _, .str _ => .isTrue trivial

/-- Stable descending sort by count.  When every count is numeric the
comparator is consistent and this is the unique stable-sort result
required of a JavaScript Array.prototype.sort; when a string count is
present the comparator is inconsistent and ECMAScript leaves the order
implementation-defined, which the embedding realises as the stable
insertion sort over the may-precede relation (no claim depends on that
case). -/
def sortByCountDesc {α : Type} (l : List (α × JsCount)) : List (α × JsCount) :=
  l.insertionSort fun p q => jsGeCount p.2 q.2

/-- extractKeywords from the analyzer module. -/
def extractKeywords (text : String) (limit : Nat) : List Keyword :=
  let words := wordsOf (lowerStr text.data)
  let frequency := buildFreq words
  ((sortByCountDesc (jsEntries frequency)).take limit).map fun p => ⟨p.1, p.2⟩

/-! Statistics aggregator. -/

/-- Result of calculateStatistics. -/
structure Stats where
  totalMessages : Nat
  averageMessageLength : ℚ
  topWords : List Keyword
deriving Repr, DecidableEq

/-- calculateStatistics from the analyzer module: total count, average
text length rounded through toFixed(2), and the five most frequent
keywords of the joined text. -/
def calculateStatistics (messages : List Message) : Stats :=
  match messages with
  | [] => ⟨0, 0, []⟩
  | _ =>
    let totalMessages := messages.length
    let totalLength : Nat := (messages.map fun m => m.text.data.length).sum
    let averageMessageLength : ℚ := (totalLength : ℚ) / (totalMessages : ℚ)
    let allText := String.intercalate " " (messages.map fun m => m.text)
    let words := wordsOf (lowerStr allText.data)
    let wordCounts := buildFreq words
    let topWords :=
      ((sortByCountDesc (jsEntries wordCounts)).take 5).map
        fun p => Keyword.mk p.1 p.2
    ⟨totalMessages, round2 averageMessageLength, topWords⟩

/-- Per-user statistics record of analyzeMessages. -/
structure UserStat where
  messageCount : Nat
  totalReactions : Nat
  averageLength : ℚ
  totalLength : Nat
deriving Repr, DecidableEq

/-- Per-channel accumulator of analyzeMessages, with the running list
of distinct users in encounter order (the JavaScript Set). -/
structure ChannelAcc where
  messageCount : Nat
  totalReactions : Nat
  uniqueUsers : List String
deriving Repr, DecidableEq

/-- Per-channel statistics record after the Set is collapsed to its
size. -/
structure ChannelStat where
  messageCount : Nat
  totalReactions : Nat
  uniqueUsers : Nat
deriving Repr, DecidableEq

/-- Most-active record derived by the strict-greater-than reduce. -/
structure MostActive where
  key : Option String
  count : Nat
deriving Repr, DecidableEq

/-- Result of analyzeMessages.  The most-active fields are present only
on the non-empty branch of the source, hence optional here. -/
structure Analysis where
  totalMessages : Nat
  averageLength : ℚ
  userStats : List (String × UserStat)
  channelStats : List (String × ChannelStat)
  timeStats : List (String × Nat)
  keywords : List Keyword
  sentimentOverview : Tally
  mostActive : Option (MostActive × MostActive)
deriving Repr, DecidableEq

/-- Reaction total of one message: sum of the count fields, zero when
the reactions field is absent. -/
def reactionTotal (m : Message) : Nat :=
  (m.reactions.getD []).foldl (fun s r => s + r.count) 0

/-- Update the per-user record for one message.  When no own entry
exists and the user identifier is an Object.prototype property name,
the negated guard of the source reads the truthy inherited value, the
initialisation is skipped, the subsequent field increments mutate the
inherited object rather than the table, and no own entry is ever
created: the message is silently absent from the per-user statistics. -/
def bumpUser (l : List (String × UserStat)) (u : String) (len rx : Nat) :
    List (String × UserStat) :=
  match l with
  | [] =>
    if protoKeys.contains u then []
    else [(u, ⟨1, rx, 0, len⟩)]
  | (k, v) :: rest =>
    if k = u then
      (k, ⟨v.messageCount + 1, v.totalReactions + rx, v.averageLength,
           v.totalLength + len⟩) :: rest
    else (k, v) :: bumpUser rest u len rx

/-- Add a user to a channel Set if absent. -/
def addUser (us : List String) (u : String) : List String :=
  if us.contains u then us else us ++ [u]

/-- Update the per-channel record for one message, assuming the channel
identifier is not an Object.prototype property name; in that remaining
case the source skips the initialisation and then throws a TypeError
(the add call on the undefined uniqueUsers field of the inherited
value), which analyzeFold models at the level of the whole pass. -/
def bumpChannel (l : List (String × ChannelAcc)) (c u : String) (rx : Nat) :
    List (String × ChannelAcc) :=
  match l with
  | [] =>
    if protoKeys.contains c then []
    else [(c, ⟨1, rx, [u]⟩)]
  | (k, v) :: rest =>
    if k = c then
      (k, ⟨v.messageCount + 1, v.totalReactions + rx, addUser v.uniqueUsers u⟩) :: rest
    else (k, v) :: bumpChannel rest c u rx

/-- Increment a counter in an insertion-ordered association list; used
only for the hour buckets, whose keys always contain a colon, so the
prototype-chain collision path of the source assignment is unreachable
there. -/
def bumpKey (l : List (String × Nat)) (k : String) : List (String × Nat) :=
  match l with
  | [] => [(k, 1)]
  | (k0, v) :: rest =>
    if k0 = k then (k0, v + 1) :: rest else (k0, v) :: bumpKey rest k

/-- Accumulator of the single pass of analyzeMessages. -/
structure AnalyzeAcc where
  userStats : List (String × UserStat)
  channelStats : List (String × ChannelAcc)
  timeStats : List (String × Nat)
  allText : List String
  sentimentCounts : Tally
  totalLength : Nat
deriving Repr

/-- Hour-of-day bucket label. -/
def hourKey (h : Nat) : String := toString h ++ ":00"

/-- One iteration of the forEach of analyzeMessages.  The hour of a
message is obtained through the hourOf parameter, which stands for the
local-time getHours of a Date built from the timestamp: that value
depends on the time zone of the executing process, so it is a
parameter of the embedding. -/
def analyzeStep (hourOf : String → Nat) (acc : AnalyzeAcc) (m : Message) :
    AnalyzeAcc where
  userStats := bumpUser acc.userStats m.user m.text.data.length (reactionTotal m)
  channelStats := bumpChannel acc.channelStats m.channel m.user (reactionTotal m)
  timeStats := bumpKey acc.timeStats (hourKey (hourOf m.ts))
  allText := acc.allText ++ [m.text]
  sentimentCounts := acc.sentimentCounts.bump (getSentiment m.text)
  totalLength := acc.totalLength + m.text.data.length

/-- Reduce of Object.entries deriving the most-active user or channel:
strict greater-than, so the first entrant retains the lead on ties. -/
def mostActiveOf {α : Type} (count : α → Nat) (l : List (String × α)) :
    MostActive :=
  l.foldl
    (fun mx p => if count p.2 > mx.count then ⟨some p.1, count p.2⟩ else mx)
    ⟨none, 0⟩

/-- Sequential processing of the forEach of analyzeMessages with the
exception behaviour of the source: for a message whose channel
identifier is an Object.prototype property name the channel-table guard
is skipped, the lookup yields the truthy inherited value, and the add
call on its undefined uniqueUsers field throws a TypeError that aborts
the whole function; none models that abort.  The per-user and text
updates the source performs on such a message before throwing are
discarded together with the rest of the state, so checking the channel
first is observationally equivalent. -/
def analyzeFold (hourOf : String → Nat) :
    List Message → AnalyzeAcc → Option AnalyzeAcc
  | [], acc => some acc
  | m :: ms, acc =>
    if protoKeys.contains m.channel then none
    else analyzeFold hourOf ms (analyzeStep hourOf acc m)

/-- Assembly of the analysis record from the accumulator after the
pass: per-user averages, channel Set sizes, joined-text keywords and
the most-active reduces, as the tail of analyzeMessages computes
them.  The parameter n is the input length. -/
def buildAnalysis (n : Nat) (acc : AnalyzeAcc) : Analysis :=
  let userStats := acc.userStats.map fun p =>
    (p.1, UserStat.mk p.2.messageCount p.2.totalReactions
      ((p.2.totalLength : ℚ) / (p.2.messageCount : ℚ)) p.2.totalLength)
  let channelStats := acc.channelStats.map fun p =>
    (p.1, ChannelStat.mk p.2.messageCount p.2.totalReactions p.2.uniqueUsers.length)
  let combinedText := String.intercalate " " acc.allText
  let keywords := extractKeywords combinedText 15
  ⟨n, (acc.totalLength : ℚ) / (n : ℚ),
   userStats, channelStats, acc.timeStats, keywords, acc.sentimentCounts,
   some (mostActiveOf UserStat.messageCount (jsEntries userStats),
         mostActiveOf ChannelStat.messageCount (jsEntries channelStats))⟩

/-- analyzeMessages from the analyzer module; none models the TypeError
the source throws when a channel identifier collides with an
Object.prototype property name. -/
def analyzeMessages (hourOf : String → Nat) (messages : List Message) :
    Option Analysis :=
  match messages with
  | [] => some ⟨0, 0, [], [], [], [], ⟨0, 0, 0⟩, none⟩
  | _ =>
    (analyzeFold hourOf messages ⟨[], [], [], [], ⟨0, 0, 0⟩, 0⟩).map
      (buildAnalysis messages.length)

/-! Detailed sentiment report. -/

/-- Detail record of getSentimentStats. -/
structure Detail where
  ts : String
  user : String
  channel : String
  text : String
  sentiment : Sentiment
  score : Int
  confidence : ℚ
deriving Repr, DecidableEq

/-- Timeline entry of getSentimentStats. -/
structure TimelineEntry where
  hour : String
  positive : Nat
  negative : Nat
  neutral : Nat
deriving Repr, DecidableEq

/-- Result of getSentimentStats. -/
structure SentimentStats where
  overall : Tally
  byUser : List (String × Tally)
  byChannel : List (String × Tally)
  timeline : List TimelineEntry
  details : List Detail
deriving Repr, DecidableEq

/-- Increment the tally of a key in an insertion-ordered association
list.  When no own entry exists and the key is an Object.prototype
property name, the negated guard of the source reads the truthy
inherited value, the initialisation is skipped, and the sentiment
increment mutates the inherited object without creating an own entry;
unlike the channel statistics no method is called here, so nothing
throws and the key simply never appears in the table. -/
def bumpTallyKey (l : List (String × Tally)) (k : String) (s : Sentiment) :
    List (String × Tally) :=
  match l with
  | [] =>
    if protoKeys.contains k then []
    else [(k, Tally.bump ⟨0, 0, 0⟩ s)]
  | (k0, v) :: rest =>
    if k0 = k then (k0, v.bump s) :: rest else (k0, v) :: bumpTallyKey rest k s

/-- Truncation of a detail text: first 100 characters, with a trailing
ellipsis marker when the text was longer. -/
def truncateText (t : String) : String :=
  ⟨t.data.take 100 ++ (if t.data.length > 100 then "...".data else [])⟩

/-- Accumulator of the first forEach of getSentimentStats. -/
structure SentAcc where
  overall : Tally
  byUser : List (String × Tally)
  byChannel : List (String × Tally)
  details : List Detail
deriving Repr

/-- One iteration of the first forEach of getSentimentStats. -/
def sentStep (acc : SentAcc) (m : Message) : SentAcc :=
  let r := getSentimentWithConfidence m.text
  { overall := acc.overall.bump r.sentiment
    byUser := bumpTallyKey acc.byUser m.user r.sentiment
    byChannel := bumpTallyKey acc.byChannel m.channel r.sentiment
    details := acc.details ++
      [⟨m.ts, m.user, m.channel, truncateText m.text, r.sentiment, r.score,
        r.confidence⟩] }

/-- Leading-number parse of JavaScript parseFloat, restricted to the
optional-sign digits-dot-digits forms the timestamp strings take; none
models NaN. -/
def jsParseFloat (s : String) : Option ℚ :=
  let t := s.data.dropWhile isWsChar
  let core : List Char → Option ℚ := fun u =>
    let intPart := u.takeWhile isDigitCh
    let rest := u.dropWhile isDigitCh
    let fracPart :=
      match rest with
      | '.' :: more => more.takeWhile isDigitCh
      | _ => []
    if intPart.isEmpty && fracPart.isEmpty then none
    else
      some ((digitsToNat intPart : ℚ) +
        (digitsToNat fracPart : ℚ) / ((10 : ℚ) ^ fracPart.length))
  match t with
  | '-' :: u => (core u).map Neg.neg
  | '+' :: u => core u
  | u => core u

/-- Sort key for the details list: the parsed timestamp, with NaN
modelled as zero. -/
def tsKey (d : Detail) : ℚ := (jsParseFloat d.ts).getD 0

/-- getSentimentStats from the analyzer module, parameterized by the
same local-time hour function as analyzeMessages. -/
def getSentimentStats (hourOf : String → Nat) (messages : List Message) :
    SentimentStats :=
  match messages with
  | [] => ⟨⟨0, 0, 0⟩, [], [], [], []⟩
  | _ =>
    let acc := messages.foldl sentStep ⟨⟨0, 0, 0⟩, [], [], []⟩
    let timeline := messages.foldl
      (fun tl m =>
        bumpTallyKey tl (hourKey (hourOf m.ts))
          (getSentimentWithConfidence m.text).sentiment)
      []
    ⟨acc.overall, acc.byUser, acc.byChannel,
     (jsEntries timeline).map fun p =>
       TimelineEntry.mk p.1 p.2.positive p.2.negative p.2.neutral,
     acc.details.insertionSort fun a b => tsKey b ≤ tsKey a⟩

/-! Spec-side definitions for the confidence claim, stated from the
claim wording so they can be compared with the source-derived
definitions above. -/

/-- Number of distinct lexicon phrases contained in the lowercased
text, as the claim defines matchedWords. -/
def specMatchedWords (text : String) : Nat :=
  ((positiveWords ++ negativeWords).filter
    fun w => containsSub (lowerStr text.data) w.data).length

/-- Net score: positive phrases contained minus negative phrases
contained. -/
def specScore (text : String) : Int :=
  ((positiveWords.filter fun w => containsSub (lowerStr text.data) w.data).length : Int) -
  ((negativeWords.filter fun w => containsSub (lowerStr text.data) w.data).length : Int)

/-- Number of whitespace-delimited tokens of the original text, in the
ordinary sense of the claim wording: maximal non-whitespace runs. -/
def specTokenCount (text : String) : Nat := (nonWsRuns text.data).length

/-- Confidence-scored sentiment as the claim words it: fixed 0.3 with
a neutral label when no phrase matched, otherwise the capped-and-rounded
density-plus-strength formula over the ordinary token count. -/
def specSentimentWithConfidence (text : String) : SentimentResult :=
  let mw := specMatchedWords text
  let score := specScore text
  let confidence : ℚ :=
    if mw = 0 then 3 / 10
    else
      round2 (min (1 / 2 + ((mw : ℚ) / (specTokenCount text : ℚ)) * (3 / 10) +
        ((score.natAbs : ℚ) / (mw : ℚ)) * (1 / 5)) (19 / 20))
  { sentiment :=
      if score > 0 then .positive
      else if score < 0 then .negative
      else .neutral
    score := score
    confidence := confidence }

/-! Helper lemmas about the lexicon scans. -/

theorem foldl_scan_pos (l : List String) (lt : List Char) (s : Int) (m : Nat) :
    l.foldl (fun sm w => if containsSub lt w.data then (sm.1 + 1, sm.2 + 1) else sm) (s, m) =
      (s + ((l.filter fun w => containsSub lt w.data).length : Int),
       m + (l.filter fun w => containsSub lt w.data).length) := by
  induction l generalizing s m with
  | nil => simp
  | cons w ws ih =>
    by_cases h : containsSub lt w.data = true
    · simp only [List.foldl_cons, h, if_true, List.filter_cons, ih,
        List.length_cons, Prod.mk.injEq]
      constructor
      · push_cast; ring
      · omega
    · simp [h, ih]

theorem foldl_scan_neg (l : List String) (lt : List Char) (s : Int) (m : Nat) :
    l.foldl (fun sm w => if containsSub lt w.data then (sm.1 - 1, sm.2 + 1) else sm) (s, m) =
      (s - ((l.filter fun w => containsSub lt w.data).length : Int),
       m + (l.filter fun w => containsSub lt w.data).length) := by
  induction l generalizing s m with
  | nil => simp
  | cons w ws ih =>
    by_cases h : containsSub lt w.data = true
    · simp only [List.foldl_cons, h, if_true, List.filter_cons, ih,
        List.length_cons, Prod.mk.injEq]
      constructor
      · push_cast; ring
      · omega
    · simp [h, ih]

theorem scoreAndMatched_eq (text : String) :
    scoreAndMatched text = (specScore text, specMatchedWords text) := by
  unfold scoreAndMatched specScore specMatchedWords
  rw [foldl_scan_pos, foldl_scan_neg]
  simp only [List.filter_append, List.length_append, Prod.mk.injEq]
  constructor
  · ring
  · omega

theorem foldl_score_pos (l : List String) (lt : List Char) (s : Int) :
    l.foldl (fun sc w => if containsSub lt w.data then sc + 1 else sc) s =
      s + ((l.filter fun w => containsSub lt w.data).length : Int) := by
  induction l generalizing s with
  | nil => simp
  | cons w ws ih =>
    by_cases h : containsSub lt w.data = true
    · simp only [List.foldl_cons, h, if_true, List.filter_cons, ih,
        List.length_cons]
      push_cast; ring
    · simp [h, ih]

theorem foldl_score_neg (l : List String) (lt : List Char) (s : Int) :
    l.foldl (fun sc w => if containsSub lt w.data then sc - 1 else sc) s =
      s - ((l.filter fun w => containsSub lt w.data).length : Int) := by
  induction l generalizing s with
  | nil => simp
  | cons w ws ih =>
    by_cases h : containsSub lt w.data = true
    · simp only [List.foldl_cons, h, if_true, List.filter_cons, ih,
        List.length_cons]
      push_cast; ring
    · simp [h, ih]

theorem sentimentScore_eq (text : String) : sentimentScore text = specScore text := by
  unfold sentimentScore specScore
  rw [foldl_score_pos, foldl_score_neg]
  ring

theorem specScore_abs_le (text : String) :
    (specScore text).natAbs ≤ specMatchedWords text := by
  unfold specScore specMatchedWords
  rw [List.filter_append, List.length_append]
  omega

theorem specMatchedWords_zero_score (text : String)
    (h : specMatchedWords text = 0) : specScore text = 0 := by
  have := specScore_abs_le text
  omega

/-! Helper lemmas about tallies and rounding. -/

theorem Tally.total_bump (t : Tally) (s : Sentiment) :
    (t.bump s).total = t.total + 1 := by
  cases s <;> simp [Tally.bump, Tally.total] <;> omega

theorem round2_three_tenths : round2 (3 / 10) = 3 / 10 := by
  norm_num [round2, jsRound, Int.floor_eq_iff]

theorem round2_bounds (x : ℚ) (h1 : 1 / 2 ≤ x) (h2 : x ≤ 19 / 20) :
    1 / 2 ≤ round2 x ∧ round2 x ≤ 19 / 20 := by
  unfold round2 jsRound
  have h50 : (50 : Int) ≤ Int.floor (x * 100 + 1 / 2) := by
    rw [Int.le_floor]; push_cast; linarith
  have h95 : Int.floor (x * 100 + 1 / 2) ≤ 95 := by
    have hle : Int.floor (x * 100 + 1 / 2) ≤ Int.floor ((191 : ℚ) / 2) :=
      Int.floor_le_floor (by linarith)
    have h191 : Int.floor ((191 : ℚ) / 2) = 95 := by
      rw [Int.floor_eq_iff]
      norm_num
    omega
  have hc1 : ((50 : Int) : ℚ) ≤ (Int.floor (x * 100 + 1 / 2) : ℚ) := by
    exact_mod_cast h50
  have hc2 : ((Int.floor (x * 100 + 1 / 2) : Int) : ℚ) ≤ ((95 : Int) : ℚ) := by
    exact_mod_cast h95
  constructor
  · push_cast at hc1 ⊢; linarith
  · push_cast at hc2 ⊢; linarith

/-! Helper lemmas about the whitespace split. -/

theorem jsSplitWsAux_length_pos (s : List Char) (acc : List Char) (b : Bool) :
    1 ≤ (jsSplitWsAux s acc b).length := by
  induction s generalizing acc b with
  | nil => simp [jsSplitWsAux]
  | cons c cs ih =>
    simp only [jsSplitWsAux]
    split_ifs with h1 h2
    · exact ih [] true
    · simp only [List.length_cons]
      omega
    · exact ih (c :: acc) false

theorem splitRuns_aux (s : List Char) (acc : List Char) (st : Bool)
    (hst : st = false → acc ≠ [])
    (hgap : st = true → acc = [] ∧ s ≠ [])
    (hlast : ∀ c, s.getLast? = some c → isWsChar c = false) :
    (jsSplitWsAux s acc st).length =
      (runsAux (fun c => !isWsChar c) s acc).length := by
  induction s generalizing acc st with
  | nil =>
    cases st with
    | false =>
      have hne := hst rfl
      simp [jsSplitWsAux, runsAux, List.isEmpty_iff, hne]
    | true => exact absurd rfl (hgap rfl).2
  | cons c cs ih =>
    by_cases hws : isWsChar c = true
    · have hcs : cs ≠ [] := by
        intro hnil
        subst hnil
        have := hlast c (by simp)
        rw [this] at hws
        exact Bool.false_ne_true hws
      have hlast2 : ∀ d, cs.getLast? = some d → isWsChar d = false := by
        intro d hd
        apply hlast
        obtain ⟨e, es, rfl⟩ := List.exists_cons_of_ne_nil hcs
        rwa [List.getLast?_cons_cons]
      cases st with
      | true =>
        have hacc := (hgap rfl).1
        subst hacc
        have h1 : jsSplitWsAux (c :: cs) [] true = jsSplitWsAux cs [] true := by
          simp [jsSplitWsAux, hws]
        have h2 : runsAux (fun c => !isWsChar c) (c :: cs) [] =
            runsAux (fun c => !isWsChar c) cs [] := by
          simp [runsAux, hws]
        rw [h1, h2]
        exact ih [] true (by simp) (fun _ => ⟨rfl, hcs⟩) hlast2
      | false =>
        obtain ⟨a, as, rfl⟩ := List.exists_cons_of_ne_nil (hst rfl)
        have h1 : jsSplitWsAux (c :: cs) (a :: as) false =
            (a :: as).reverse :: jsSplitWsAux cs [] true := by
          simp [jsSplitWsAux, hws]
        have h2 : runsAux (fun c => !isWsChar c) (c :: cs) (a :: as) =
            (a :: as).reverse :: runsAux (fun c => !isWsChar c) cs [] := by
          simp [runsAux, hws]
        rw [h1, h2]
        simp only [List.length_cons]
        have := ih [] true (by simp) (fun _ => ⟨rfl, hcs⟩) hlast2
        omega
    · have hlast2 : ∀ d, cs.getLast? = some d → isWsChar d = false := by
        intro d hd
        apply hlast
        have hcs : cs ≠ [] := by
          intro hnil
          rw [hnil] at hd
          simp at hd
        obtain ⟨e, es, rfl⟩ := List.exists_cons_of_ne_nil hcs
        rwa [List.getLast?_cons_cons]
      have h1 : jsSplitWsAux (c :: cs) acc st = jsSplitWsAux cs (c :: acc) false := by
        simp [jsSplitWsAux, hws]
      have h2 : runsAux (fun c => !isWsChar c) (c :: cs) acc =
          runsAux (fun c => !isWsChar c) cs (c :: acc) := by
        simp [runsAux, hws]
      rw [h1, h2]
      exact ih (c :: acc) false (fun _ => by simp) (by simp) hlast2

theorem tokens_eq (text : String) (hne : text.data ≠ [])
    (hhead : ∀ c, text.data.head? = some c → isWsChar c = false)
    (hlast : ∀ c, text.data.getLast? = some c → isWsChar c = false) :
    (jsSplitWs text.data).length = specTokenCount text := by
  unfold jsSplitWs specTokenCount nonWsRuns
  obtain ⟨c, cs, hd⟩ := List.exists_cons_of_ne_nil hne
  rw [hd]
  have hcws : isWsChar c = false := by
    apply hhead; rw [hd]; rfl
  have hlast2 : ∀ d, cs.getLast? = some d → isWsChar d = false := by
    intro d hdd
    apply hlast
    rw [hd]
    rcases cs with _ | ⟨e, es⟩
    · simp at hdd
    · rwa [List.getLast?_cons_cons]
  simp only [jsSplitWsAux, hcws, Bool.false_eq_true, if_false, runsAux,
    Bool.not_eq_true]
  rw [if_pos (by simp [hcws])]
  exact splitRuns_aux cs [c] false (fun _ => by simp) (by simp) hlast2

/-! Helper lemmas about the keyword extractor. -/

theorem jsEntries_perm {α : Type} (l : List (String × α)) :
    List.Perm (jsEntries l) l := by
  unfold jsEntries
  exact List.Perm.trans
    (List.Perm.append (List.perm_insertionSort _ _) (List.Perm.refl _))
    (List.filter_append_perm _ l)

theorem sortByCountDesc_perm {α : Type} (l : List (α × JsCount)) :
    List.Perm (sortByCountDesc l) l := List.perm_insertionSort _ _

theorem orderedInsert_sorted_num {α : Type} (x : α × JsCount)
    (l : List (α × JsCount))
    (hx : ∃ n, x.2 = JsCount.num n) (hl : ∀ p ∈ l, ∃ n, p.2 = JsCount.num n)
    (hs : l.Pairwise fun p q => jsGeCount p.2 q.2) :
    (List.orderedInsert (fun p q => jsGeCount p.2 q.2) x l).Pairwise
      (fun p q => jsGeCount p.2 q.2) := by
  induction l with
  | nil => simp [List.orderedInsert]
  | cons y ys ih =>
    rw [List.orderedInsert]
    split_ifs with hr
    · refine List.Pairwise.cons ?_ hs
      intro z hz
      rcases List.mem_cons.mp hz with rfl | hz2
      · exact hr
      · obtain ⟨a, ha⟩ := hx
        obtain ⟨b, hb⟩ := hl y (by simp)
        obtain ⟨c, hc⟩ := hl z (by simp [hz2])
        have h1 : jsGeCount y.2 z.2 := (List.pairwise_cons.mp hs).1 z hz2
        rw [ha, hb] at hr
        rw [hb, hc] at h1
        rw [ha, hc]
        simp only [jsGeCount] at hr h1 ⊢
        omega
    · refine List.Pairwise.cons ?_
        (ih (fun p hp => hl p (by simp [hp])) (List.pairwise_cons.mp hs).2)
      intro z hz
      rcases (List.mem_orderedInsert _).mp hz with rfl | hz2
      · obtain ⟨a, ha⟩ := hx
        obtain ⟨b, hb⟩ := hl y (by simp)
        rw [ha, hb] at hr ⊢
        simp only [jsGeCount] at hr ⊢
        omega
      · exact (List.pairwise_cons.mp hs).1 z hz2

theorem insertionSort_sorted_num {α : Type} (l : List (α × JsCount))
    (hl : ∀ p ∈ l, ∃ n, p.2 = JsCount.num n) :
    (sortByCountDesc l).Pairwise (fun p q => jsGeCount p.2 q.2) := by
  unfold sortByCountDesc
  induction l with
  | nil => simp
  | cons x l ih =>
    rw [List.insertionSort]
    refine orderedInsert_sorted_num x _ (hl x (by simp)) ?_
      (ih fun p hp => hl p (by simp [hp]))
    intro p hp
    exact hl p (by simp [(List.perm_insertionSort _ _).mem_iff.mp hp])

theorem bumpCount_good (l : List (String × JsCount)) (w : String)
    (hl : ∀ p ∈ l, stopWords.contains p.1 = false ∧ 3 ≤ p.1.length ∧
      ∃ n, p.2 = JsCount.num n ∧ 1 ≤ n)
    (hw1 : stopWords.contains w = false) (hw2 : 3 ≤ w.length)
    (hwp : protoKeys.contains w = false) :
    ∀ p ∈ bumpCount l w,
      stopWords.contains p.1 = false ∧ 3 ≤ p.1.length ∧
      ∃ n, p.2 = JsCount.num n ∧ 1 ≤ n := by
  induction l with
  | nil =>
    intro p hp
    have hwproto : ¬ w = "__proto__" := by
      intro h
      subst h
      exact absurd hwp (by decide)
    have hwp2 : ¬ protoKeys.contains w = true := by
      rw [hwp]
      exact Bool.false_ne_true
    simp only [bumpCount] at hp
    rw [if_neg hwproto, if_neg hwp2] at hp
    simp only [List.mem_singleton] at hp
    subst hp
    exact ⟨hw1, hw2, 1, rfl, le_refl 1⟩
  | cons q l ih =>
    obtain ⟨k, v⟩ := q
    intro p hp
    by_cases hk : k = w
    · simp only [bumpCount, hk, if_true] at hp
      rcases List.mem_cons.mp hp with h | h
      · subst h
        obtain ⟨h1, h2, n, hv, hn⟩ := hl (w, v) (by simp [hk])
        refine ⟨by simpa using h1, by simpa using h2, n + 1, ?_, by omega⟩
        simp only at hv
        simp [hv, bumpJsCount]
      · exact hl _ (List.mem_cons_of_mem _ h)
    · simp only [bumpCount, hk, if_false] at hp
      rcases List.mem_cons.mp hp with h | h
      · subst h
        exact hl _ (List.mem_cons_self _ _)
      · exact ih (fun q hq => hl q (List.mem_cons_of_mem _ hq)) p h

theorem buildFreq_aux_good (ws : List (List Char)) (acc : List (String × JsCount))
    (hws : ∀ w ∈ ws, protoKeys.contains (⟨w⟩ : String) = false)
    (hacc : ∀ p ∈ acc, stopWords.contains p.1 = false ∧ 3 ≤ p.1.length ∧
      ∃ n, p.2 = JsCount.num n ∧ 1 ≤ n) :
    ∀ p ∈ ws.foldl
        (fun acc w =>
          if !stopWords.contains ⟨w⟩ && w.length > 2 then bumpCount acc ⟨w⟩ else acc)
        acc,
      stopWords.contains p.1 = false ∧ 3 ≤ p.1.length ∧
      ∃ n, p.2 = JsCount.num n ∧ 1 ≤ n := by
  induction ws generalizing acc with
  | nil => exact hacc
  | cons w ws ih =>
    simp only [List.foldl_cons]
    have hws2 : ∀ v ∈ ws, protoKeys.contains (⟨v⟩ : String) = false :=
      fun v hv => hws v (List.mem_cons_of_mem _ hv)
    by_cases hc : (!stopWords.contains ⟨w⟩ && decide (w.length > 2)) = true
    · rw [if_pos hc]
      have h1 : stopWords.contains (⟨w⟩ : String) = false := by
        have := (Bool.and_eq_true _ _).mp hc |>.1
        simpa using this
      have h2 : 3 ≤ (⟨w⟩ : String).length := by
        have := (Bool.and_eq_true _ _).mp hc |>.2
        have h2lt : 2 < w.length := of_decide_eq_true this
        have : (⟨w⟩ : String).length = w.length := rfl
        omega
      exact ih _ hws2
        (bumpCount_good acc ⟨w⟩ hacc h1 h2 (hws w (List.mem_cons_self _ _)))
    · rw [if_neg hc]
      exact ih _ hws2 hacc

theorem buildFreq_good (ws : List (List Char))
    (hws : ∀ w ∈ ws, protoKeys.contains (⟨w⟩ : String) = false) :
    ∀ p ∈ buildFreq ws,
      stopWords.contains p.1 = false ∧ 3 ≤ p.1.length ∧
      ∃ n, p.2 = JsCount.num n ∧ 1 ≤ n :=
  buildFreq_aux_good ws [] hws (by simp)

theorem extractKeywords_length (text : String) (limit : Nat) :
    (extractKeywords text limit).length ≤ limit := by
  unfold extractKeywords
  simp [List.length_take]

theorem allWords_noProto (text : String)
    (hp : ((wordsOf (lowerStr text.data)).all
      fun w => !protoKeys.contains (⟨w⟩ : String)) = true) :
    ∀ w ∈ wordsOf (lowerStr text.data), protoKeys.contains (⟨w⟩ : String) = false := by
  intro w hw
  have := List.all_eq_true.mp hp w hw
  simpa using this

theorem extractKeywords_mem (text : String) (limit : Nat)
    (hp : ((wordsOf (lowerStr text.data)).all
      fun w => !protoKeys.contains (⟨w⟩ : String)) = true)
    (kw : Keyword) (hkw : kw ∈ extractKeywords text limit) :
    stopWords.contains kw.word = false ∧ 3 ≤ kw.word.length ∧
    ∃ n, kw.count = JsCount.num n ∧ 1 ≤ n := by
  unfold extractKeywords at hkw
  simp only [List.mem_map] at hkw
  obtain ⟨p, hpm, rfl⟩ := hkw
  have hp2 : p ∈ sortByCountDesc (jsEntries (buildFreq (wordsOf (lowerStr text.data)))) :=
    List.mem_of_mem_take hpm
  have hp3 : p ∈ jsEntries (buildFreq (wordsOf (lowerStr text.data))) :=
    (sortByCountDesc_perm _).mem_iff.mp hp2
  have hp4 : p ∈ buildFreq (wordsOf (lowerStr text.data)) :=
    (jsEntries_perm _).mem_iff.mp hp3
  exact buildFreq_good _ (allWords_noProto text hp) p hp4

theorem extractKeywords_sorted (text : String) (limit : Nat)
    (hp : ((wordsOf (lowerStr text.data)).all
      fun w => !protoKeys.contains (⟨w⟩ : String)) = true) :
    (extractKeywords text limit).Pairwise
      (fun a b => jsGeCount a.count b.count) := by
  unfold extractKeywords
  rw [List.pairwise_map]
  have hnums : ∀ p ∈ jsEntries (buildFreq (wordsOf (lowerStr text.data))),
      ∃ n, p.2 = JsCount.num n := by
    intro p hpm
    obtain ⟨-, -, n, hn, -⟩ :=
      buildFreq_good _ (allWords_noProto text hp) p ((jsEntries_perm _).mem_iff.mp hpm)
    exact ⟨n, hn⟩
  exact (insertionSort_sorted_num _ hnums).sublist (List.take_sublist _ _)

/-! Helper lemmas about the aggregate folds. -/

theorem bumpUser_sum (l : List (String × UserStat)) (u : String) (len rx : Nat)
    (hu : protoKeys.contains u = false) :
    ((bumpUser l u len rx).map fun p => p.2.messageCount).sum =
      ((l.map fun p => p.2.messageCount).sum) + 1 := by
  induction l with
  | nil =>
    have hu2 : ¬ protoKeys.contains u = true := by
      rw [hu]
      exact Bool.false_ne_true
    simp only [bumpUser, if_neg hu2]
    simp
  | cons q l ih =>
    obtain ⟨k, v⟩ := q
    by_cases hk : k = u
    · simp [bumpUser, hk]
      omega
    · simp [bumpUser, hk, ih]
      omega

theorem bumpChannel_sum (l : List (String × ChannelAcc)) (c u : String) (rx : Nat)
    (hc : protoKeys.contains c = false) :
    ((bumpChannel l c u rx).map fun p => p.2.messageCount).sum =
      ((l.map fun p => p.2.messageCount).sum) + 1 := by
  induction l with
  | nil =>
    have hc2 : ¬ protoKeys.contains c = true := by
      rw [hc]
      exact Bool.false_ne_true
    simp only [bumpChannel, if_neg hc2]
    simp
  | cons q l ih =>
    obtain ⟨k, v⟩ := q
    by_cases hk : k = c
    · simp [bumpChannel, hk]
      omega
    · simp [bumpChannel, hk, ih]
      omega

theorem analyze_fold (hourOf : String → Nat) (msgs : List Message) (acc : AnalyzeAcc)
    (h : ∀ m ∈ msgs, protoKeys.contains m.user = false ∧
      protoKeys.contains m.channel = false) :
    (((msgs.foldl (analyzeStep hourOf) acc).userStats.map fun p => p.2.messageCount).sum =
      ((acc.userStats.map fun p => p.2.messageCount).sum) + msgs.length) ∧
    (((msgs.foldl (analyzeStep hourOf) acc).channelStats.map fun p => p.2.messageCount).sum =
      ((acc.channelStats.map fun p => p.2.messageCount).sum) + msgs.length) ∧
    ((msgs.foldl (analyzeStep hourOf) acc).sentimentCounts.total =
      acc.sentimentCounts.total + msgs.length) := by
  induction msgs generalizing acc with
  | nil => simp
  | cons m ms ih =>
    simp only [List.foldl_cons, List.length_cons]
    have hm := h m (List.mem_cons_self _ _)
    obtain ⟨h1, h2, h3⟩ := ih (analyzeStep hourOf acc m)
      (fun m2 hm2 => h m2 (List.mem_cons_of_mem _ hm2))
    refine ⟨?_, ?_, ?_⟩
    · rw [h1,
        show (analyzeStep hourOf acc m).userStats =
          bumpUser acc.userStats m.user m.text.data.length (reactionTotal m) from rfl,
        bumpUser_sum _ _ _ _ hm.1]
      omega
    · rw [h2,
        show (analyzeStep hourOf acc m).channelStats =
          bumpChannel acc.channelStats m.channel m.user (reactionTotal m) from rfl,
        bumpChannel_sum _ _ _ _ hm.2]
      omega
    · rw [h3,
        show (analyzeStep hourOf acc m).sentimentCounts =
          acc.sentimentCounts.bump (getSentiment m.text) from rfl,
        Tally.total_bump]
      omega

theorem analyzeFold_some (hourOf : String → Nat) (msgs : List Message)
    (acc : AnalyzeAcc)
    (h : ∀ m ∈ msgs, protoKeys.contains m.channel = false) :
    analyzeFold hourOf msgs acc = some (msgs.foldl (analyzeStep hourOf) acc) := by
  induction msgs generalizing acc with
  | nil => rfl
  | cons m ms ih =>
    have hm : ¬ protoKeys.contains m.channel = true := by
      rw [h m (List.mem_cons_self _ _)]
      exact Bool.false_ne_true
    simp only [analyzeFold, if_neg hm, List.foldl_cons]
    exact ih _ (fun m2 hm2 => h m2 (List.mem_cons_of_mem _ hm2))

theorem sent_fold (msgs : List Message) (acc : SentAcc) :
    (msgs.foldl sentStep acc).overall.total = acc.overall.total + msgs.length := by
  induction msgs generalizing acc with
  | nil => simp
  | cons m ms ih =>
    simp only [List.foldl_cons, List.length_cons]
    rw [ih,
      show (sentStep acc m).overall =
        acc.overall.bump (getSentimentWithConfidence m.text).sentiment from rfl,
      Tally.total_bump]
    omega

/-! Helper lemmas about the identity hasher. -/

/-- Lowercase hexadecimal digit class. -/
def isHexDigit (c : Char) : Bool :=
  ('0' ≤ c && c ≤ '9') || ('a' ≤ c && c ≤ 'f')

theorem hexDigitCh_isHex (n : Nat) : isHexDigit (hexDigitCh (n % 16)) = true := by
  have h : n % 16 < 16 := Nat.mod_lt _ (by norm_num)
  set m := n % 16 with hm
  interval_cases m <;> decide

theorem hex8_all_hex (x : Nat) : (hex8 x).all isHexDigit = true := by
  simp only [hex8, List.all_cons, List.all_nil, Bool.and_true,
    Bool.and_eq_true]
  exact ⟨hexDigitCh_isHex _, hexDigitCh_isHex _, hexDigitCh_isHex _,
    hexDigitCh_isHex _, hexDigitCh_isHex _, hexDigitCh_isHex _,
    hexDigitCh_isHex _, hexDigitCh_isHex _⟩

theorem sha256hex_length (s : String) : (sha256hex s).length = 64 := by
  unfold sha256hex
  simp [hex8]

theorem hex8_length (x : Nat) : (hex8 x).length = 8 := rfl

theorem sha256hex_all_hex (s : String) : (sha256hex s).all isHexDigit = true := by
  unfold sha256hex
  simp [List.all_append, hex8_all_hex]

theorem all_take (p : Char → Bool) (l : List Char) (n : Nat)
    (h : l.all p = true) : (l.take n).all p = true := by
  rw [List.all_eq_true] at h ⊢
  exact fun x hx => h x (List.mem_of_mem_take hx)

theorem hashUserId_data (u : String) :
    (hashUserId u).data = "user_".data ++ (sha256hex u).take 8 := rfl

theorem hashUserId_length (u : String) : (hashUserId u).length = 13 := by
  have h64 : (sha256hex u).length = 64 := sha256hex_length u
  have : (hashUserId u).length = ("user_".data ++ (sha256hex u).take 8).length := rfl
  rw [this, List.length_append, List.length_take, h64]
  rfl

theorem hashUserId_take5 (u : String) :
    (hashUserId u).data.take 5 = "user_".data := by
  rw [hashUserId_data, show (5 : Nat) = ("user_".data).length from rfl]
  exact List.take_left _ _

theorem hashUserId_drop5_hex (u : String) :
    ((hashUserId u).data.drop 5).all isHexDigit = true := by
  rw [hashUserId_data, show (5 : Nat) = ("user_".data).length from rfl,
    List.drop_left]
  exact all_take _ _ _ (sha256hex_all_hex u)

theorem hashUserId_drop5_length (u : String) :
    ((hashUserId u).data.drop 5).length = 8 := by
  rw [hashUserId_data, show (5 : Nat) = ("user_".data).length from rfl,
    List.drop_left, List.length_take, sha256hex_length]
  rfl

theorem hashUserId_ne (u : String) (h : u.length ≠ 13) : hashUserId u ≠ u := by
  intro he
  apply h
  rw [← he, hashUserId_length]

/-- Bridge from the boolean head condition to the pointwise one. -/
theorem optAll_elim (o : Option Char) (h : (o.all fun c => !isWsChar c) = true) :
    ∀ c, o = some c → isWsChar c = false := by
  intro c hc
  rw [hc] at h
  simpa using h

/-! Claims. -/

/-- Concrete message whose text contains no redactable pattern. -/
def mPlain : Message := ⟨"1.0", "U1", "bob", "C1", "hello", some []⟩

/-- Claim C1 counterexample: for the message with text hello, which no
redaction rule matches, the text field of the anonymized record equals
the raw input text verbatim, so the claim that no output field equals
the input text is false. -/
theorem C1_counterexample : (anonymizeMessage mPlain).text = mPlain.text := by
  decide

/-- Claim C1, amended: the user field of the anonymized record is
always the 5-character user token literal followed by exactly 8
lowercase hexadecimal characters, 13 characters in total, so it differs
from the input user identifier whenever that identifier is not itself
13 characters long; the username field is the constant marker.  The
text field, however, is only the redacted text and coincides with the
raw input text when no redaction rule matches. -/
theorem C1_amended (m : Message) :
    (anonymizeMessage m).user.length = 13 ∧
    (anonymizeMessage m).user.data.take 5 = "user_".data ∧
    ((anonymizeMessage m).user.data.drop 5).length = 8 ∧
    ((anonymizeMessage m).user.data.drop 5).all isHexDigit = true ∧
    (m.user.length ≠ 13 → (anonymizeMessage m).user ≠ m.user) ∧
    (anonymizeMessage m).username = "[USERNAME]" :=
  ⟨hashUserId_length m.user, hashUserId_take5 m.user,
   hashUserId_drop5_length m.user, hashUserId_drop5_hex m.user,
   fun h => hashUserId_ne m.user h, rfl⟩

/-- Witness for the amended claim C1 at the concrete message mPlain. -/
theorem C1_amended_witness :
    mPlain.user.length ≠ 13 ∧ (anonymizeMessage mPlain).user ≠ mPlain.user :=
  ⟨by decide, (C1_amended mPlain).2.2.2.2.1 (by decide)⟩

/-- Claim C2 counterexample: for the text consisting of a space
followed by the word great, the source computes token count 2 (the
split on whitespace produces a leading empty piece), giving confidence
0.85, while the claimed formula over the single whitespace-delimited
token gives 0.95. -/
theorem C2_counterexample :
    (getSentimentWithConfidence " great").confidence = 17 / 20 ∧
    (specSentimentWithConfidence " great").confidence = 19 / 20 := by
  have h1 : scoreAndMatched " great" = (1, 1) := by decide
  have h2 : (jsSplitWs " great".data).length = 2 := by decide
  have h3 : specMatchedWords " great" = 1 := by decide
  have h4 : specScore " great" = 1 := by decide
  have h5 : specTokenCount " great" = 1 := by decide
  constructor
  · simp only [getSentimentWithConfidence, h1, h2]
    norm_num [round2, jsRound, Int.floor_eq_iff]
  · simp only [specSentimentWithConfidence, h3, h4, h5]
    norm_num [round2, jsRound, Int.floor_eq_iff]

/-- Claim C2, amended: the token count used by the source is the length
of the JavaScript split of the text on whitespace runs, which counts
one extra empty token for each of a leading and a trailing whitespace
run; on texts that are nonempty and neither start nor end with
whitespace this equals the number of whitespace-delimited tokens, and
there the source agrees exactly with the claimed formula: confidence
0.3 with label neutral when no lexicon phrase is contained, otherwise
min(0.95, 0.5 + 0.3 mw/tc + 0.2 |score|/mw) rounded to two decimals,
with mw the number of distinct lexicon phrases contained in the
lowercased text. -/
theorem C2_amended (text : String) (hne : text.data ≠ [])
    (hhead : (text.data.head?.all fun c => !isWsChar c) = true)
    (hlast : (text.data.getLast?.all fun c => !isWsChar c) = true) :
    getSentimentWithConfidence text = specSentimentWithConfidence text := by
  have htok := tokens_eq text hne (optAll_elim _ hhead) (optAll_elim _ hlast)
  have hsm := scoreAndMatched_eq text
  by_cases h0 : specMatchedWords text = 0
  · have hsc := specMatchedWords_zero_score text h0
    simp [getSentimentWithConfidence, specSentimentWithConfidence, hsm, htok,
      h0, hsc, round2_three_tenths]
  · simp [getSentimentWithConfidence, specSentimentWithConfidence, hsm, htok, h0]

/-- Witness for the amended claim C2 at a concrete text. -/
theorem C2_amended_witness :
    ("great job".data ≠ []) ∧
    getSentimentWithConfidence "great job" = specSentimentWithConfidence "great job" :=
  ⟨by decide, C2_amended "great job" (by decide) (by decide) (by decide)⟩

/-- Claim C3: the basic scorer computes the net count of positive
lexicon phrases contained in the lowercased text minus negative ones,
each phrase counted at most once; the label is positive, negative or
neutral exactly by the sign of that score; on the first example text
two phrases match and the score is 2 with label positive, the second
example is negative, and any text containing no lexicon phrase is
neutral. -/
theorem C3_basic_scorer :
    (∀ text : String,
      sentimentScore text = specScore text ∧
      (getSentiment text = .positive ↔ 0 < sentimentScore text) ∧
      (getSentiment text = .negative ↔ sentimentScore text < 0) ∧
      (getSentiment text = .neutral ↔ sentimentScore text = 0)) ∧
    getSentiment "This is great and wonderful" = .positive ∧
    sentimentScore "This is great and wonderful" = 2 ∧
    specMatchedWords "This is great and wonderful" = 2 ∧
    getSentiment "critical bug, urgent issue" = .negative ∧
    (∀ text : String, specMatchedWords text = 0 → getSentiment text = .neutral) := by
  have hlabels : ∀ text : String,
      (getSentiment text = .positive ↔ 0 < sentimentScore text) ∧
      (getSentiment text = .negative ↔ sentimentScore text < 0) ∧
      (getSentiment text = .neutral ↔ sentimentScore text = 0) := by
    intro text
    by_cases h1 : sentimentScore text > 0
    · simp [getSentiment, h1]
      omega
    · by_cases h2 : sentimentScore text < 0
      · simp [getSentiment, h1, h2]
        omega
      · simp [getSentiment, h1, h2]
        omega
  refine ⟨fun text => ⟨sentimentScore_eq text, hlabels text⟩,
    by decide, by decide, by decide, by decide, ?_⟩
  intro text h0
  have hsc := specMatchedWords_zero_score text h0
  have := (hlabels text).2.2
  rw [this, sentimentScore_eq, hsc]

/-- Witness for claim C3 at a concrete phrase-free text. -/
theorem C3_witness :
    specMatchedWords "qqq www" = 0 ∧ getSentiment "qqq www" = .neutral :=
  ⟨by decide, C3_basic_scorer.2.2.2.2.2 "qqq www" (by decide)⟩

/-- Claim C4 counterexample: redacting the concrete text dollar sign
1,2345551234567 once replaces the leading amount, and the bracketed
token then creates a word boundary that lets the phone rule fire on the
remaining ten digits in a second pass, so redact of redact differs from
redact. -/
theorem C4_counterexample :
    anonymizeText (anonymizeText "$1,2345551234567") ≠
      anonymizeText "$1,2345551234567" := by
  decide

/-- Claim C4, amended: redact is not idempotent in general, because the
replacement performed by a later rule can create a word boundary that
enables an earlier rule on a second pass; idempotence does hold at
every fixed point of redact, and on the end-to-end example text of the
specification. -/
theorem C4_amended :
    (∀ t : String, anonymizeText t = t →
      anonymizeText (anonymizeText t) = anonymizeText t) ∧
    anonymizeText (anonymizeText "Email me at a@b.com or call 555-123-4567") =
      anonymizeText "Email me at a@b.com or call 555-123-4567" :=
  ⟨fun _ h => by rw [h]; exact h, by decide⟩

/-- Witness for the amended claim C4 at a concrete fixed point. -/
theorem C4_amended_witness :
    anonymizeText "hello" = "hello" ∧
    anonymizeText (anonymizeText "hello") = anonymizeText "hello" :=
  ⟨by decide, C4_amended.1 "hello" (by decide)⟩

/-- Claim C5 counterexample: in the text abc 111 the word abc is
encountered first, both words have count one, yet the extractor returns
111 first, because JavaScript object enumeration places array-index
keys, such as the numeral 111, before other keys regardless of
insertion order, so the claimed first-encounter tie-break fails; and
for the word constructor the frequency read hits the inherited
Object.prototype.constructor function, so the read-or-zero-plus-one
assignment concatenates and stores a string count instead of the
number one, while an occurrence of the word for the prototype accessor
spelled as two underscores, proto, two underscores is swallowed by the
inherited setter and never becomes an own key at all. -/
theorem C5_counterexample :
    (extractKeywords "abc 111" 10).map Keyword.word = ["111", "abc"] ∧
    (extractKeywords "abc 111" 10).map Keyword.count = [.num 1, .num 1] ∧
    wordsOf (lowerStr "abc 111".data) = ["abc".data, "111".data] ∧
    (extractKeywords "constructor word word" 10).map Keyword.count =
      [JsCount.str (protoValStr "constructor" ++ "1"), JsCount.num 2] ∧
    (extractKeywords "__proto__ abc" 10).map Keyword.word = ["abc"] := by
  decide

/-- Claim C5, amended: when no word of the text collides with an
Object.prototype property name, extractKeywords returns at most limit
pairs, none of which is a stop word or shorter than three characters,
all with positive numeric counts, sorted descending by count under the
comparator of the source; ties are broken by the object property
enumeration order of the frequency table, which is first-encounter
order except that words that are canonical numerals below 2^32 - 1
come first in ascending numeric order. -/
theorem C5_amended (text : String) (limit : Nat)
    (hp : ((wordsOf (lowerStr text.data)).all
      fun w => !protoKeys.contains (⟨w⟩ : String)) = true) :
    (extractKeywords text limit).length ≤ limit ∧
    (∀ kw ∈ extractKeywords text limit,
      stopWords.contains kw.word = false ∧ 3 ≤ kw.word.length ∧
      ∃ n, kw.count = JsCount.num n ∧ 1 ≤ n) ∧
    (extractKeywords text limit).Pairwise
      (fun a b => jsGeCount a.count b.count) :=
  ⟨extractKeywords_length text limit,
   fun kw hkw => extractKeywords_mem text limit hp kw hkw,
   extractKeywords_sorted text limit hp⟩

/-- Witness for the amended claim C5 at a concrete text. -/
theorem C5_amended_witness :
    ((wordsOf (lowerStr "hello world hello".data)).all
      fun w => !protoKeys.contains (⟨w⟩ : String)) = true ∧
    ((Keyword.mk "hello" (.num 2)) ∈ extractKeywords "hello world hello" 10 ∧
     stopWords.contains "hello" = false ∧ 3 ≤ ("hello" : String).length ∧
     ∃ n, (Keyword.mk "hello" (.num 2)).count = JsCount.num n ∧ 1 ≤ n) :=
  ⟨by decide,
   ⟨by decide,
    (C5_amended "hello world hello" 10 (by decide)).2.1
      ⟨"hello", .num 2⟩ (by decide)⟩⟩

/-- Message whose user collides with an Object.prototype key. -/
def mC6user : Message := ⟨"1.0", "constructor", "", "C1", "hi", some []⟩

/-- Message whose channel collides with an Object.prototype key. -/
def mC6chan : Message := ⟨"1.0", "U1", "", "constructor", "hi", some []⟩

/-- Ordinary message free of Object.prototype collisions. -/
def mC6ok : Message := ⟨"3.0", "U3", "", "C3", "ok", some []⟩

/-- Claim C6 counterexample: for a single message whose user is the
word constructor, the membership test on the user-stats object reads
the truthy inherited Object.prototype.constructor function, so the
initialisation branch is skipped and the increments land on properties
of the inherited function instead of an own entry; the per-user
message counts then sum to zero while totalMessages is one, refuting
the claimed partition. For a single message whose channel is the word
constructor, the source reads the inherited function, finds no
uniqueUsers field on it and calls add on undefined, throwing a
TypeError, modelled here as the none result. -/
theorem C6_counterexample :
    (analyzeMessages (fun _ => 0) [mC6user]).map
      (fun A => (((A.userStats.map fun p => p.2.messageCount).sum),
        A.totalMessages)) = some (0, 1) ∧
    analyzeMessages (fun _ => 0) [mC6chan] = none :=
  ⟨rfl, rfl⟩

/-- Claim C6, amended: when no user or channel of the input collides
with an Object.prototype property name, analyzeMessages returns a
result whose per-user message counts, per-channel message counts and
sentiment tally each sum to the total message count, which is the
length of the input sequence; and in getSentimentStats the overall
sentiment tally always sums to the length of the input sequence. -/
theorem C6_amended (hourOf : String → Nat) (messages : List Message)
    (hall : (messages.all fun m =>
      !protoKeys.contains m.user && !protoKeys.contains m.channel) = true) :
    (∃ A, analyzeMessages hourOf messages = some A ∧
      ((A.userStats.map fun p => p.2.messageCount).sum = messages.length) ∧
      ((A.channelStats.map fun p => p.2.messageCount).sum = messages.length) ∧
      (A.sentimentOverview.total = messages.length) ∧
      (A.totalMessages = messages.length)) ∧
    ((getSentimentStats hourOf messages).overall.total = messages.length) := by
  have h2 : ∀ m ∈ messages, protoKeys.contains m.user = false ∧
      protoKeys.contains m.channel = false := by
    intro m hm
    have hb := List.all_eq_true.mp hall m hm
    simp only [Bool.and_eq_true, Bool.not_eq_true'] at hb
    exact hb
  cases messages with
  | nil =>
    exact ⟨⟨⟨0, 0, [], [], [], [], ⟨0, 0, 0⟩, none⟩, rfl, rfl, rfl, rfl, rfl⟩, rfl⟩
  | cons m ms =>
    have hf := analyzeFold_some hourOf (m :: ms) ⟨[], [], [], [], ⟨0, 0, 0⟩, 0⟩
      (fun m2 hm2 => (h2 m2 hm2).2)
    have hsum := analyze_fold hourOf (m :: ms) ⟨[], [], [], [], ⟨0, 0, 0⟩, 0⟩ h2
    have hsent := sent_fold (m :: ms) ⟨⟨0, 0, 0⟩, [], [], []⟩
    refine ⟨⟨buildAnalysis (m :: ms).length
      ((m :: ms).foldl (analyzeStep hourOf) ⟨[], [], [], [], ⟨0, 0, 0⟩, 0⟩),
      ?_, ?_, ?_, ?_, rfl⟩, ?_⟩
    · rw [show analyzeMessages hourOf (m :: ms) =
        (analyzeFold hourOf (m :: ms) ⟨[], [], [], [], ⟨0, 0, 0⟩, 0⟩).map
          (buildAnalysis (m :: ms).length) from rfl, hf]
      rfl
    · rw [show (buildAnalysis (m :: ms).length
          ((m :: ms).foldl (analyzeStep hourOf)
            ⟨[], [], [], [], ⟨0, 0, 0⟩, 0⟩)).userStats =
        ((m :: ms).foldl (analyzeStep hourOf)
          ⟨[], [], [], [], ⟨0, 0, 0⟩, 0⟩).userStats.map
          (fun p => (p.1, UserStat.mk p.2.messageCount p.2.totalReactions
            ((p.2.totalLength : ℚ) / (p.2.messageCount : ℚ))
            p.2.totalLength)) from rfl,
        List.map_map]
      simpa using hsum.1
    · rw [show (buildAnalysis (m :: ms).length
          ((m :: ms).foldl (analyzeStep hourOf)
            ⟨[], [], [], [], ⟨0, 0, 0⟩, 0⟩)).channelStats =
        ((m :: ms).foldl (analyzeStep hourOf)
          ⟨[], [], [], [], ⟨0, 0, 0⟩, 0⟩).channelStats.map
          (fun p => (p.1, ChannelStat.mk p.2.messageCount p.2.totalReactions
            p.2.uniqueUsers.length)) from rfl,
        List.map_map]
      simpa using hsum.2.1
    · rw [show (buildAnalysis (m :: ms).length
          ((m :: ms).foldl (analyzeStep hourOf)
            ⟨[], [], [], [], ⟨0, 0, 0⟩, 0⟩)).sentimentOverview =
        ((m :: ms).foldl (analyzeStep hourOf)
          ⟨[], [], [], [], ⟨0, 0, 0⟩, 0⟩).sentimentCounts from rfl]
      simpa [Tally.total] using hsum.2.2
    · rw [show (getSentimentStats hourOf (m :: ms)).overall =
        ((m :: ms).foldl sentStep ⟨⟨0, 0, 0⟩, [], [], []⟩).overall from rfl]
      simpa [Tally.total] using hsent

/-- Witness for the amended claim C6 at a concrete one-message input. -/
theorem C6_amended_witness :
    (([mC6ok].all fun m =>
      !protoKeys.contains m.user && !protoKeys.contains m.channel) = true) ∧
    ((∃ A, analyzeMessages (fun _ => 0) [mC6ok] = some A ∧
      ((A.userStats.map fun p => p.2.messageCount).sum = [mC6ok].length) ∧
      ((A.channelStats.map fun p => p.2.messageCount).sum = [mC6ok].length) ∧
      (A.sentimentOverview.total = [mC6ok].length) ∧
      (A.totalMessages = [mC6ok].length)) ∧
    ((getSentimentStats (fun _ => 0) [mC6ok]).overall.total =
      [mC6ok].length)) :=
  ⟨by decide, C6_amended (fun _ => 0) [mC6ok] (by decide)⟩

/-- Claim C7: anonymize preserves the timestamp, channel and reactions
fields, with reactions defaulting to the empty sequence when absent,
forces the username to the constant marker, sets the anonymized flag,
and anonymizeMessages maps anonymize over the input, preserving length
and order pointwise. -/
theorem C7_frame (m : Message) (messages : List Message) :
    (anonymizeMessage m).ts = m.ts ∧
    (anonymizeMessage m).channel = m.channel ∧
    (anonymizeMessage m).reactions = m.reactions.getD [] ∧
    (m.reactions = none → (anonymizeMessage m).reactions = []) ∧
    (anonymizeMessage m).username = "[USERNAME]" ∧
    (anonymizeMessage m).anonymized = true ∧
    (anonymizeMessages messages).length = messages.length ∧
    anonymizeMessages messages = messages.map anonymizeMessage :=
  ⟨rfl, rfl, rfl, fun h => by
      rw [show (anonymizeMessage m).reactions = m.reactions.getD [] from rfl, h]
      rfl,
   rfl, rfl, List.length_map _ _, rfl⟩

/-- Concrete message with no reactions field. -/
def mNoReact : Message := ⟨"2.0", "U2", "ann", "C2", "hi", none⟩

/-- Witness for claim C7 at a concrete message without reactions. -/
theorem C7_witness :
    mNoReact.reactions = none ∧ (anonymizeMessage mNoReact).reactions = [] :=
  ⟨rfl, (C7_frame mNoReact []).2.2.2.1 rfl⟩

/-- Concrete end-to-end message of claim C8. -/
def mC8 : Message :=
  ⟨"1.0", "U1", "", "C1", "Email me at a@b.com or call 555-123-4567", some []⟩

/-- Claim C8: on the end-to-end example message, anonymize redacts the
email and the phone number, hashes the user to the token user_316ca0ef,
which is the user prefix followed by exactly 8 hexadecimal characters,
replaces the username by the constant marker and sets the anonymized
flag. -/
theorem C8_end_to_end :
    (anonymizeMessage mC8).text = "Email me at [EMAIL] or call [PHONE]" ∧
    (anonymizeMessage mC8).user = "user_316ca0ef" ∧
    (anonymizeMessage mC8).user.data.take 5 = "user_".data ∧
    ((anonymizeMessage mC8).user.data.drop 5).length = 8 ∧
    ((anonymizeMessage mC8).user.data.drop 5).all isHexDigit = true ∧
    (anonymizeMessage mC8).username = "[USERNAME]" ∧
    (anonymizeMessage mC8).anonymized = true := by
  refine ⟨by decide, by decide, by decide, by decide, by decide, rfl, rfl⟩

/-- Claim C9: each aggregate entry point applied to the empty message
sequence returns its zero-valued structure: zero totals, zero averages,
empty keyword, user, channel, time, timeline and detail structures, and
an all-zero sentiment tally, for every hour function; analyzeMessages
returns it under some, since on the empty branch the prototype-key
TypeError of the fold is unreachable. -/
theorem C9_empty_inputs :
    calculateStatistics [] = ⟨0, 0, []⟩ ∧
    (∀ hourOf : String → Nat, analyzeMessages hourOf [] =
      some ⟨0, 0, [], [], [], [], ⟨0, 0, 0⟩, none⟩) ∧
    (∀ hourOf : String → Nat, getSentimentStats hourOf [] =
      ⟨⟨0, 0, 0⟩, [], [], [], []⟩) :=
  ⟨rfl, fun _ => rfl, fun _ => rfl⟩

/-- Claim C10: the confidence-scored sentiment function is total, the
whitespace split always produces at least one token, and the returned
confidence is either exactly 0.3 or lies in the closed interval from
0.5 to 0.95. -/
theorem C10_confidence_safety (text : String) :
    1 ≤ (jsSplitWs text.data).length ∧
    ((getSentimentWithConfidence text).confidence = 3 / 10 ∨
      (1 / 2 ≤ (getSentimentWithConfidence text).confidence ∧
       (getSentimentWithConfidence text).confidence ≤ 19 / 20)) := by
  refine ⟨jsSplitWsAux_length_pos _ _ _, ?_⟩
  by_cases h0 : (scoreAndMatched text).2 = 0
  · left
    simp [getSentimentWithConfidence, h0, round2_three_tenths]
  · right
    have hconf : (getSentimentWithConfidence text).confidence =
        round2 (min (1 / 2 +
          ((scoreAndMatched text).2 : ℚ) / ((jsSplitWs text.data).length : ℚ) * (3 / 10) +
          ((scoreAndMatched text).1.natAbs : ℚ) / ((scoreAndMatched text).2 : ℚ) * (1 / 5))
          (19 / 20)) := by
      simp [getSentimentWithConfidence, h0]
    rw [hconf]
    have ha : (0 : ℚ) ≤
        ((scoreAndMatched text).2 : ℚ) / ((jsSplitWs text.data).length : ℚ) * (3 / 10) := by
      positivity
    have hb : (0 : ℚ) ≤
        ((scoreAndMatched text).1.natAbs : ℚ) / ((scoreAndMatched text).2 : ℚ) * (1 / 5) := by
      positivity
    have h1 : (1 : ℚ) / 2 ≤ min (1 / 2 +
        ((scoreAndMatched text).2 : ℚ) / ((jsSplitWs text.data).length : ℚ) * (3 / 10) +
        ((scoreAndMatched text).1.natAbs : ℚ) / ((scoreAndMatched text).2 : ℚ) * (1 / 5))
        (19 / 20) :=
      le_min (by linarith) (by norm_num)
    have h2 : min (1 / 2 +
        ((scoreAndMatched text).2 : ℚ) / ((jsSplitWs text.data).length : ℚ) * (3 / 10) +
        ((scoreAndMatched text).1.natAbs : ℚ) / ((scoreAndMatched text).2 : ℚ) * (1 / 5))
        (19 / 20) ≤ 19 / 20 := min_le_right _ _
    exact round2_bounds _ h1 h2

end SlackAnon

